import Mathlib

/- Verification of the extraction-and-repair subsystem of the ML_Group22
   news-article pipeline: the fixed-position article parser and CSV
   serialization (Sensing.py, Sensing_V1.py), the line-integrity scanner
   (Sensing.py, clean_csv_file), the text normalizer (Pre_Processing.py,
   clean_text) and the row validator (testV1.py).  Python strings are
   modelled as Lean `String`s, with the Python primitives (`strip`,
   `split`, `replace`, `in`, `re.sub`, `str.join`) re-implemented
   explicitly on lists of characters so that their behaviour is fully
   transparent to the proofs. -/

namespace MLG22

/-- Whitespace characters recognised by the Python string primitives used
in the source (space, tab, newline, carriage return, vertical tab, form
feed). -/
def isPySpace (c : Char) : Bool :=
  c = ' ' || c = '\t' || c = '\n' || c = '\r' || c = '\x0b' || c = '\x0c'

/-- Python `str.strip()`: drop whitespace from both ends. -/
def pyStrip (s : String) : String :=
  String.mk (((s.data.dropWhile isPySpace).reverse.dropWhile isPySpace).reverse)

/-- Helper for `pySplit`: split a character list at every occurrence of
`sep`, accumulating the current piece in reverse. -/
def splitOnCharAux (sep : Char) : List Char → List Char → List (List Char)
  | [], cur => [cur.reverse]
  | c :: rest, cur =>
    if c = sep then cur.reverse :: splitOnCharAux sep rest []
    else splitOnCharAux sep rest (c :: cur)

/-- Python `s.split(sep)` for a one-character separator: e.g.
`"a,b".split(",") = ["a","b"]` and `"".split(",") = [""]`. -/
def pySplit (sep : Char) (s : String) : List String :=
  (splitOnCharAux sep s.data []).map String.mk

/-- Python `str.replace(pat, rep)` on character lists: scan left to right,
replacing each non-overlapping occurrence of `pat` (taken non-empty) and
continuing after the replaced segment.  The extra `fuel` argument, always
instantiated with the length of the scanned list, makes the recursion
structural so that the function evaluates inside the kernel. -/
def replaceFuel (pat rep : List Char) : ℕ → List Char → List Char
  | 0, l => l
  | _ + 1, [] => []
  | fuel + 1, c :: rest =>
    if pat ≠ [] ∧ pat.isPrefixOf (c :: rest) = true then
      rep ++ replaceFuel pat rep fuel ((c :: rest).drop pat.length)
    else
      c :: replaceFuel pat rep fuel rest

/-- Python `str.replace(pat, rep)` on character lists. -/
def replaceL (pat rep l : List Char) : List Char :=
  replaceFuel pat rep l.length l

/-- Python `s.replace(pat, rep)` lifted to strings. -/
def pyReplace (s pat rep : String) : String :=
  String.mk (replaceL pat.data rep.data s.data)

/-- Helper for `squashWs`; the flag records whether the previous character
was whitespace (in which case further whitespace is absorbed into the
already-emitted space). -/
def squashWsAux : Bool → List Char → List Char
  | _, [] => []
  | prev, c :: rest =>
    if isPySpace c then
      if prev then squashWsAux true rest else ' ' :: squashWsAux true rest
    else c :: squashWsAux false rest

/-- Replace every maximal run of whitespace by a single space, as
`re.sub(r"\s+", " ", -)` does. -/
def squashWs (l : List Char) : List Char :=
  squashWsAux false l

/-- Python `s.startswith(pre)`. -/
def pyStartsWith (s pre : String) : Bool :=
  pre.data.isPrefixOf s.data

/-- Substring search on character lists, the model of Python `pat in s`. -/
def containsL : List Char → List Char → Bool
  | pat, [] => pat.isEmpty
  | pat, c :: rest => pat.isPrefixOf (c :: rest) || containsL pat rest

/-- Python `pat in s` for strings. -/
def pyContains (s pat : String) : Bool :=
  containsL pat.data s.data

/-- Python `sep.join(pieces)`. -/
def joinWith (sep : String) : List String → String
  | [] => ""
  | [s] => s
  | s :: rest => s ++ sep ++ joinWith sep rest

/-- Remove from `l` the elements whose position (counting from `start`)
lies in `skip`, keeping the survivors in order; this is the second,
filtering pass shared by both repair components. -/
def removeIdx {α : Type} (skip : Finset ℕ) : ℕ → List α → List α
  | _, [] => []
  | i, a :: rest =>
    if i ∈ skip then removeIdx skip (i + 1) rest
    else a :: removeIdx skip (i + 1) rest

/-- Helper for `pySplitWs`. -/
def splitWsAux : List Char → List Char → List (List Char)
  | [], cur => if cur.isEmpty then [] else [cur.reverse]
  | c :: rest, cur =>
    if isPySpace c then
      if cur.isEmpty then splitWsAux rest []
      else cur.reverse :: splitWsAux rest []
    else splitWsAux rest (c :: cur)

/-- Python `s.split()` with no separator: split on whitespace runs,
dropping empty pieces. -/
def pySplitWs (s : String) : List String :=
  (splitWsAux s.data []).map String.mk

/-- Double every quote character: the quoted-field escaping rule of the
CSV format. -/
def escQ : List Char → List Char
  | [] => []
  | c :: t => if c = '"' then '"' :: '"' :: escQ t else c :: escQ t

/-- Whether minimal quoting must quote a field: it contains the delimiter,
a quote character, or a line-terminator character. -/
def needsQ (f : List Char) : Bool :=
  f.any (fun c => c = ',' || c = '"' || c = '\n' || c = '\r')

/-- Encoding of one field under the quote-all policy (csv QUOTE_ALL,
`quoting=1`). -/
def encFieldAll (f : List Char) : List Char :=
  '"' :: (escQ f ++ ['"'])

/-- Encoding of one field under minimal quoting (csv QUOTE_MINIMAL, the
pandas default when no `quoting` argument is passed). -/
def encFieldMin (f : List Char) : List Char :=
  if needsQ f then encFieldAll f else f

/-- Comma-join of encoded fields: one serialized CSV row. -/
def encodeRowL (enc : List Char → List Char) : List (List Char) → List Char
  | [] => []
  | [f] => enc f
  | f :: rest => enc f ++ ',' :: encodeRowL enc rest

/-- One CSV line under minimal quoting. -/
def encodeRowMin (fields : List String) : String :=
  String.mk (encodeRowL encFieldMin (fields.map String.data))

/-- One CSV line under the quote-all policy. -/
def encodeRowAll (fields : List String) : String :=
  String.mk (encodeRowL encFieldAll (fields.map String.data))

/-- CSV row decoder, the standard toggle state machine: the flag says
whether the scan is inside a quoted section, and a doubled quote inside
one denotes a literal quote character. -/
def splitCsvAux : List Char → Bool → List Char → List String
  | [], _, cur => [String.mk cur.reverse]
  | c :: rest, true, cur =>
    if c = '"' then
      match rest with
      | [] => [String.mk cur.reverse]
      | c2 :: rest2 =>
        if c2 = '"' then splitCsvAux rest2 true ('"' :: cur)
        else splitCsvAux (c2 :: rest2) false cur
    else splitCsvAux rest true (c :: cur)
  | c :: rest, false, cur =>
    if c = '"' then splitCsvAux rest true cur
    else if c = ',' then String.mk cur.reverse :: splitCsvAux rest false []
    else splitCsvAux rest false (c :: cur)

/-- Decode one CSV line into its fields. -/
def parseCsvRow (s : String) : List String :=
  splitCsvAux s.data false []

/-- The structured representation of one article.  The `section` field is
called `section_` because `section` is a Lean keyword. -/
structure Record where
  section_ : String
  date : String
  byline : String
  url : String
  headline : String
  body_text : String
  label : String
deriving DecidableEq, Repr, Inhabited

/-- The record's fields in the serialization column order
`label, section, date, byline, headline, url, body_text`. -/
def recordFields (r : Record) : List String :=
  [r.label, r.section_, r.date, r.byline, r.headline, r.url, r.body_text]

/-- The serialization column order of both producers. -/
def column_order : List String :=
  ["label", "section", "date", "byline", "headline", "url", "body_text"]

/-- A decoded CSV row as the validator of testV1.py sees it: each column
is optional, `none` standing for a missing column or a missing (NaN)
value.  The `section` column is called `section_` because `section` is a
Lean keyword. -/
structure Row where
  label : Option String
  section_ : Option String
  date : Option String
  byline : Option String
  headline : Option String
  url : Option String
  body_text : Option String
deriving DecidableEq, Repr, Inhabited

/-- The string the Python code obtains via `str(row.get(col, ""))` for a
text column: the stored string, or `""` when the value is missing.  (For a
missing value CPython actually produces `"nan"`; every predicate of the
validator gives the same verdict on `""` and on `"nan"`, so the model uses
`""`.) -/
def optStr : Option String → String
  | some s => s
  | none => ""

namespace TestV1

/-- The fixed closed label set of testV1.py. -/
def valid_labels : List String := ["news", "sport", "commentisfree", "culture"]

/-- Check 1 of `is_corrupted_row`: the label must be present and one of
the valid categories. -/
def label_issues (r : Row) : List String :=
  match r.label with
  | some l => if l ∈ valid_labels then [] else ["Invalid label"]
  | none => ["Missing label"]

/-- Check 2: the body text should be reasonably long. -/
def body_short_issues (r : Row) : List String :=
  if (optStr r.body_text).length < 20 then ["Body text too short"] else []

/-- Check 3: the body text should not start with a category name. -/
def body_category_issues (r : Row) : List String :=
  if valid_labels.any (fun c => pyStartsWith (optStr r.body_text) c) then
    ["Body text starts with category name"]
  else []

/-- Check 4: the section should be a short string. -/
def section_issues (r : Row) : List String :=
  if (optStr r.section_).length > 100 then ["Section field too long"] else []

/-- Check 5: a present, non-empty date should have between 8 and 20
characters. -/
def date_issues (r : Row) : List String :=
  match r.date with
  | some d =>
    if 0 < d.length then
      if d.length > 20 ∨ d.length < 8 then ["Date format suspicious"] else []
    else []
  | none => []

/-- Check 6: the URL should contain the site domain or a scheme. -/
def url_issues (r : Row) : List String :=
  if !(pyContains (optStr r.url) "theguardian.com")
      && !(pyContains (optStr r.url) "https://") then
    ["Invalid URL"]
  else []

/-- Check 7: the byline should not be extremely long. -/
def byline_issues (r : Row) : List String :=
  if (optStr r.byline).length > 200 then ["Byline too long"] else []

/-- Check 8: the headline should not be missing or extremely long. -/
def headline_issues (r : Row) : List String :=
  if (optStr r.headline).length < 5 then ["Headline too short"]
  else if (optStr r.headline).length > 500 then ["Headline too long"]
  else []

/-- The issue list of `is_corrupted_row`, accumulating the eight checks in
source order. -/
def all_issues (r : Row) : List String :=
  label_issues r ++ body_short_issues r ++ body_category_issues r ++
  section_issues r ++ date_issues r ++ url_issues r ++
  byline_issues r ++ headline_issues r

/-- Model of `is_corrupted_row` (testV1.py): the row is corrupted exactly
when the accumulated issue list is non-empty. -/
def is_corrupted_row (r : Row) : Bool × List String :=
  if (all_issues r).isEmpty then (false, []) else (true, all_issues r)

/-- Positions of the corrupted rows, in order, as collected by the
scanning loop of `clean_corrupted_data`. -/
def corrupted_indices (rows : List Row) : List ℕ :=
  (rows.enum.filter (fun p => (is_corrupted_row p.2).1)).map Prod.fst

/-- One step of the removal loop of `clean_corrupted_data`: mark the
corrupted index, its predecessor when it exists, and its successor when it
is in range. -/
def blast_step (n : ℕ) (acc : Finset ℕ) (idx : ℕ) : Finset ℕ :=
  let acc1 := insert idx acc
  let acc2 := if 0 < idx then insert (idx - 1) acc1 else acc1
  if idx < n - 1 then insert (idx + 1) acc2 else acc2

/-- The full removal set of `clean_corrupted_data`. -/
def indices_to_remove (rows : List Row) : Finset ℕ :=
  (corrupted_indices rows).foldl (blast_step rows.length) ∅

/-- Whether the row at position `i` is corrupted. -/
def corruptedAt (rows : List Row) (i : ℕ) : Bool :=
  match rows.get? i with
  | some r => (is_corrupted_row r).1
  | none => false

/-- Result of `clean_corrupted_data`: the surviving rows and the residual
corruption count reported by the final validation loop. -/
structure CleanResult where
  rows : List Row
  remaining_issues : ℕ
deriving DecidableEq, Repr

/-- Model of `clean_corrupted_data` (testV1.py): classify every row,
remove the union of blast-radius neighbourhoods in one pass, then re-run
the classifier over the survivors purely to count residual corrupted rows;
the survivors are what gets written out. -/
def clean_corrupted_data (rows : List Row) : CleanResult :=
  let toRemove := indices_to_remove rows
  let df_clean := removeIdx toRemove 0 rows
  let remaining := (df_clean.filter (fun r => (is_corrupted_row r).1)).length
  ⟨df_clean, remaining⟩

/-- Specification-side removal set: all indices within distance one of a
corrupted index, clamped to the valid range. -/
def removalSpecSet (rows : List Row) : Finset ℕ :=
  (Finset.range rows.length).filter
    (fun j => ∃ i ∈ Finset.range rows.length,
      corruptedAt rows i = true ∧ i ≤ j + 1 ∧ j ≤ i + 1)

/-- Specification-side single removal pass. -/
def one_pass_survivors (rows : List Row) : List Row :=
  removeIdx (removalSpecSet rows) 0 rows

/-- A fully well-formed sample row: every predicate of the validator
passes on it. -/
def goodRow : Row :=
  ⟨some "news", some "uk", some "2024-01-01", some "Ann",
    some "Hello there", some "https://www.theguardian.com/x",
    some "plain body text that is long enough"⟩

/-- A sample row whose only defect is an invalid label. -/
def badRow : Row := { goodRow with label := some "weather" }

/-- Ten-row corpus with exactly row 5 corrupted. -/
def rows10_mid : List Row :=
  [goodRow, goodRow, goodRow, goodRow, goodRow, badRow,
    goodRow, goodRow, goodRow, goodRow]

/-- Ten-row corpus with exactly row 0 corrupted. -/
def rows10_first : List Row :=
  [badRow, goodRow, goodRow, goodRow, goodRow, goodRow,
    goodRow, goodRow, goodRow, goodRow]

/-- Ten-row corpus with exactly row 9 corrupted. -/
def rows10_last : List Row :=
  [goodRow, goodRow, goodRow, goodRow, goodRow, goodRow,
    goodRow, goodRow, goodRow, badRow]

/-- Sample row combining the three specific defects named in the spec:
label "weather", headline "Hi", url "not-a-url". -/
def weatherRow : Row :=
  ⟨some "weather", none, none, none, some "Hi", some "not-a-url", none⟩

end TestV1


namespace Sensing

/-- The label tokens accepted by the CSV cleanup of Sensing.py: the four
categories plus the header token. -/
def valid_labels : List String :=
  ["news", "sport", "commentisfree", "culture", "label"]

/-- The candidate token of a physical line, as `clean_csv_file` computes
it: the part before the first comma, stripped of surrounding whitespace,
with every quote character and byte-order mark removed. -/
def firstCol (line : String) : String :=
  pyReplace (pyReplace (pyStrip ((pySplit ',' line).headD "")) "\"" "")
    "\uFEFF" ""

/-- A physical line is classified broken when its candidate token is not a
recognised label. -/
def brokenLine (line : String) : Bool :=
  decide (firstCol line ∉ valid_labels)

/-- Deletion-set collection loop of `clean_csv_file`, started at index
`i`: every broken line index is marked together with its predecessor when
one exists. -/
def linesToSkipAux : ℕ → List String → Finset ℕ
  | _, [] => ∅
  | i, line :: rest =>
    (if brokenLine line then (if 0 < i then {i, i - 1} else {i}) else ∅) ∪
      linesToSkipAux (i + 1) rest

/-- The full deletion set of `clean_csv_file`, collected in one pass. -/
def linesToSkip (lines : List String) : Finset ℕ :=
  linesToSkipAux 0 lines

/-- Model of `clean_csv_file` (Sensing.py): when the deletion set is
empty the lines are returned unchanged; otherwise the deletion-set indices
are filtered out in a second pass. -/
def clean_csv_file (lines : List String) : List String :=
  let skip := linesToSkip lines
  if skip = ∅ then lines else removeIdx skip 0 lines

/-- A serialized corpus whose first data line is a spilled fragment. -/
def sampleCsvLines : List String :=
  ["label,section,date", "spill fragment", "news,uk,2024"]

/-- A serialized corpus with no broken line. -/
def cleanCsvLines : List String :=
  ["label,section,date", "news,uk,2024"]

/-- Model of `parse_article_file` (Sensing.py) on the file's decoded
content; `label` is the containing directory name supplied by the caller.
Extraction is strictly positional: a missing line or a missing `|`
delimiter yields an empty field, never a failure. -/
def parse_article_file (content label : String) : Record :=
  let lines := pySplit '\n' content
  let header_line := lines.getD 0 ""
  let byline_line := lines.getD 1 ""
  let url_line := lines.getD 2 ""
  let header_parts := pySplit '|' header_line
  let sec := if 1 < header_parts.length then pyStrip (header_parts.getD 1 "")
    else ""
  let date := if 2 < header_parts.length then pyStrip (header_parts.getD 2 "")
    else ""
  let byline := pyStrip (pyReplace byline_line "By " "")
  let url := pyStrip url_line
  let headline := if 4 < lines.length then pyStrip (lines.getD 4 "") else ""
  let raw_text := if 6 < lines.length then joinWith " " (lines.drop 6)
    else ""
  let body_text := pyStrip (String.mk (squashWs raw_text.data))
  ⟨sec, date, byline, url, headline, body_text, label⟩

/-- The fixed category list of `collect_all_articles`. -/
def categories : List String := ["news", "sport", "commentisfree", "culture"]

/-- Model of `collect_all_articles` (Sensing.py).  The filesystem is an
explicit argument: `fs c` is `none` when the category directory `c` is
missing (warning, category skipped), and otherwise the list of its files'
contents, a content being `none` when reading or decoding the file raises
(`parse_article_file` then returns `None` and the file is skipped). -/
def collect_all_articles (fs : String → Option (List (Option String))) :
    List Record :=
  (categories.map (fun category =>
    match fs category with
    | none => []
    | some files =>
      files.filterMap (fun oc =>
        oc.map (fun c => parse_article_file c category)))).join

/-- Model of the `df.to_csv(...)` call of `create_sensed_data_csv`
(Sensing.py): no `quoting` argument is passed, so pandas uses minimal
quoting; one header line plus one line per record. -/
def to_csv (records : List Record) : List String :=
  encodeRowMin column_order ::
    records.map (fun r => encodeRowMin (recordFields r))

/-- The serialized text: every line terminated by the line terminator. -/
def to_csv_text (records : List Record) : String :=
  joinWith "\n" (to_csv records) ++ "\n"

/-- Re-decoding of the first data row of a serialized text: split the
text into physical lines, take line 1, decode it as a CSV row. -/
def decode_data_row (text : String) : List String :=
  parseCsvRow ((pySplit '\n' text).getD 1 "")

/-- Model of `create_sensed_data_csv` (Sensing.py): collect all articles;
when none parsed, terminate with a diagnostic and write no output;
otherwise write the serialized corpus and run the CSV cleanup on it. -/
def create_sensed_data_csv (fs : String → Option (List (Option String))) :
    Option (List String) :=
  let articles := collect_all_articles fs
  if articles.isEmpty then none
  else some (clean_csv_file (to_csv articles))

/-- A concrete parsed record whose fields are all plain (no delimiter,
quote or line-terminator characters). -/
def sampleRecord : Record :=
  ⟨"uk", "2024-01-01", "Ann", "https://www.theguardian.com/x",
    "Hello there", "plain body text", "news"⟩

/-- A sample filesystem: only the news directory exists and holds one
readable file. -/
def fs0 : String → Option (List (Option String)) :=
  fun c => if c = "news" then some [some "The Guardian | UK | 2024"] else none

/-- A sample filesystem with no category directory at all. -/
def fsNone : String → Option (List (Option String)) :=
  fun _ => none

end Sensing

namespace SensingV1

/-- Model of the `df.to_csv(..., quoting=1)` call of
`create_sensed_data_csv` (Sensing_V1.py): `quoting=1` is QUOTE_ALL, so
every field of every line, header included, is quoted. -/
def to_csv (records : List Record) : List String :=
  encodeRowAll column_order ::
    records.map (fun r => encodeRowAll (recordFields r))

end SensingV1

namespace PreProc

/-- The five mojibake replacements of `clean_text` (Pre_Processing.py), in
source order: apostrophe, left quote, right quote, dash, bullet. -/
def remap_punct (t : String) : String :=
  pyReplace (pyReplace (pyReplace (pyReplace (pyReplace t
    "â€™" "'") "â€œ" "\"") "â€" "\"") "â€\"" "-") "â€¢" "•"

/-- The whitespace collapsing step `" ".join(text.split())` of
`clean_text`. -/
def collapse_spaces (t : String) : String :=
  joinWith " " (pySplitWs t)

/-- Model of `clean_text` (Pre_Processing.py) on strings: the punctuation
remapping runs first, the whitespace collapsing second. -/
def clean_text (t : String) : String :=
  collapse_spaces (remap_punct t)

end PreProc

lemma splitCsvAux_nil (b : Bool) (cur : List Char) :
    splitCsvAux [] b cur = [String.mk cur.reverse] := by
  cases b <;> rfl

lemma splitCsvAux_close_nil (cur : List Char) :
    splitCsvAux ['"'] true cur = [String.mk cur.reverse] := by
  rfl

lemma splitCsvAux_escaped (rest2 cur : List Char) :
    splitCsvAux ('"' :: '"' :: rest2) true cur =
      splitCsvAux rest2 true ('"' :: cur) := by
  rfl

lemma splitCsvAux_close (c : Char) (rs cur : List Char) (hc : c ≠ '"') :
    splitCsvAux ('"' :: c :: rs) true cur =
      splitCsvAux (c :: rs) false cur := by
  rw [splitCsvAux.eq_def]
  simp [hc]

lemma splitCsvAux_inq (c : Char) (rest cur : List Char) (hc : c ≠ '"') :
    splitCsvAux (c :: rest) true cur =
      splitCsvAux rest true (c :: cur) := by
  rw [splitCsvAux.eq_def]
  simp [hc]

lemma splitCsvAux_open (rest cur : List Char) :
    splitCsvAux ('"' :: rest) false cur = splitCsvAux rest true cur := by
  rfl

lemma splitCsvAux_comma (rest cur : List Char) :
    splitCsvAux (',' :: rest) false cur =
      String.mk cur.reverse :: splitCsvAux rest false [] := by
  rfl

lemma splitCsvAux_plain (c : Char) (rest cur : List Char) (h1 : c ≠ '"')
    (h2 : c ≠ ',') :
    splitCsvAux (c :: rest) false cur =
      splitCsvAux rest false (c :: cur) := by
  rw [splitCsvAux.eq_def]
  simp [h1, h2]

lemma escQ_quote (t : List Char) : escQ ('"' :: t) = '"' :: '"' :: escQ t := by
  rfl

lemma escQ_other (a : Char) (t : List Char) (ha : a ≠ '"') :
    escQ (a :: t) = a :: escQ t := by
  rw [escQ.eq_def]
  simp [ha]

lemma encodeRowL_pair (enc : List Char → List Char) (f g : List Char)
    (t : List (List Char)) :
    encodeRowL enc (f :: g :: t) = enc f ++ ',' :: encodeRowL enc (g :: t) := by
  rfl

lemma map_mk_data (fields : List String) :
    List.map (String.mk ∘ String.data) fields = fields := by
  calc List.map (String.mk ∘ String.data) fields = List.map id fields :=
        List.map_congr_left (fun s _ => rfl)
    _ = fields := List.map_id fields

/-- Scanning the escaped body of a quoted field up to and past its closing
quote accumulates exactly the original field characters, provided the
closing quote is not immediately followed by another quote character. -/
lemma splitCsvAux_escQ (f : List Char) :
    ∀ (cur rest : List Char),
      (rest = [] ∨ ∃ c rs, rest = c :: rs ∧ c ≠ '"') →
      splitCsvAux (escQ f ++ '"' :: rest) true cur =
        splitCsvAux rest false (f.reverse ++ cur) := by
  induction f with
  | nil =>
    rintro cur rest (rfl | ⟨c, rs, rfl, hc⟩)
    · simp only [escQ, List.nil_append, List.reverse_nil]
      rw [splitCsvAux_close_nil, splitCsvAux_nil]
    · simp only [escQ, List.nil_append, List.reverse_nil]
      rw [splitCsvAux_close c rs cur hc]
  | cons a t ih =>
    intro cur rest hrest
    by_cases ha : a = '"'
    · subst ha
      rw [escQ_quote, List.cons_append, List.cons_append,
        splitCsvAux_escaped, ih ('"' :: cur) rest hrest]
      simp [List.append_assoc]
    · rw [escQ_other a t ha, List.cons_append,
        splitCsvAux_inq a _ cur ha, ih (a :: cur) rest hrest]
      simp [List.append_assoc]

/-- Scanning an unquoted field that contains no delimiter and no quote
character accumulates it unchanged, up to the next comma. -/
lemma splitCsvAux_unquoted_comma (f : List Char)
    (hf : ∀ c ∈ f, c ≠ ',' ∧ c ≠ '"') :
    ∀ (cur rs : List Char),
      splitCsvAux (f ++ ',' :: rs) false cur =
        String.mk (cur.reverse ++ f) :: splitCsvAux rs false [] := by
  induction f with
  | nil =>
    intro cur rs
    rw [List.nil_append, splitCsvAux_comma]
    simp
  | cons a t ih =>
    intro cur rs
    obtain ⟨ha1, ha2⟩ := hf a (List.mem_cons_self a t)
    rw [List.cons_append, splitCsvAux_plain a _ cur ha2 ha1,
      ih (fun c hc => hf c (List.mem_cons_of_mem a hc)) (a :: cur) rs]
    simp [List.append_assoc]

/-- End-of-line version of `splitCsvAux_unquoted_comma`. -/
lemma splitCsvAux_unquoted_end (f : List Char)
    (hf : ∀ c ∈ f, c ≠ ',' ∧ c ≠ '"') :
    ∀ cur : List Char,
      splitCsvAux f false cur = [String.mk (cur.reverse ++ f)] := by
  induction f with
  | nil =>
    intro cur
    rw [splitCsvAux_nil]
    simp
  | cons a t ih =>
    intro cur
    obtain ⟨ha1, ha2⟩ := hf a (List.mem_cons_self a t)
    rw [splitCsvAux_plain a _ cur ha2 ha1,
      ih (fun c hc => hf c (List.mem_cons_of_mem a hc)) (a :: cur)]
    simp [List.append_assoc]

lemma needsQ_false_no_special {f : List Char} (h : needsQ f = false) :
    ∀ c ∈ f, c ≠ ',' ∧ c ≠ '"' := by
  intro c hc
  rw [needsQ, List.any_eq_false] at h
  have := h c hc
  constructor <;> intro heq <;> subst heq <;> simp at this

/-- A quote-all encoded field followed by a comma decodes to the original
field. -/
lemma splitCsvAux_fieldAll_comma (f rs : List Char) :
    splitCsvAux (encFieldAll f ++ ',' :: rs) false [] =
      String.mk f :: splitCsvAux rs false [] := by
  rw [encFieldAll, List.cons_append, splitCsvAux_open]
  rw [List.append_assoc]
  rw [show (['"'] ++ ',' :: rs : List Char) = '"' :: ',' :: rs from rfl]
  rw [splitCsvAux_escQ f [] (',' :: rs) (Or.inr ⟨',', rs, rfl, by decide⟩)]
  rw [List.append_nil, splitCsvAux_comma]
  simp

/-- A quote-all encoded field at end of line decodes to the original
field. -/
lemma splitCsvAux_fieldAll_end (f : List Char) :
    splitCsvAux (encFieldAll f) false [] = [String.mk f] := by
  rw [encFieldAll, splitCsvAux_open]
  rw [show (escQ f ++ ['"'] : List Char) = escQ f ++ '"' :: [] from rfl]
  rw [splitCsvAux_escQ f [] [] (Or.inl rfl)]
  rw [List.append_nil, splitCsvAux_nil]
  simp

/-- A minimally quoted encoded field followed by a comma decodes to the
original field, whatever the field's content. -/
lemma splitCsvAux_fieldMin_comma (f rs : List Char) :
    splitCsvAux (encFieldMin f ++ ',' :: rs) false [] =
      String.mk f :: splitCsvAux rs false [] := by
  rw [encFieldMin]
  by_cases h : needsQ f
  · rw [if_pos h, splitCsvAux_fieldAll_comma]
  · rw [if_neg h]
    rw [splitCsvAux_unquoted_comma f
      (needsQ_false_no_special (Bool.eq_false_iff.mpr h)) [] rs]
    simp

/-- End-of-line version of `splitCsvAux_fieldMin_comma`. -/
lemma splitCsvAux_fieldMin_end (f : List Char) :
    splitCsvAux (encFieldMin f) false [] = [String.mk f] := by
  rw [encFieldMin]
  by_cases h : needsQ f
  · rw [if_pos h, splitCsvAux_fieldAll_end]
  · rw [if_neg h]
    rw [splitCsvAux_unquoted_end f
      (needsQ_false_no_special (Bool.eq_false_iff.mpr h)) []]
    simp

/-- Decoding inverts minimal-quoting encoding on every non-empty field
list. -/
lemma splitCsvAux_encodeRowMin (fields : List (List Char))
    (h : fields ≠ []) :
    splitCsvAux (encodeRowL encFieldMin fields) false [] =
      fields.map String.mk := by
  induction fields with
  | nil => exact absurd rfl h
  | cons f rest ih =>
    cases rest with
    | nil =>
      rw [show encodeRowL encFieldMin [f] = encFieldMin f from rfl,
        splitCsvAux_fieldMin_end]
      rfl
    | cons g t =>
      rw [encodeRowL_pair, splitCsvAux_fieldMin_comma,
        ih (List.cons_ne_nil g t)]
      rfl

/-- Decoding inverts quote-all encoding on every non-empty field list. -/
lemma splitCsvAux_encodeRowAll (fields : List (List Char))
    (h : fields ≠ []) :
    splitCsvAux (encodeRowL encFieldAll fields) false [] =
      fields.map String.mk := by
  induction fields with
  | nil => exact absurd rfl h
  | cons f rest ih =>
    cases rest with
    | nil =>
      rw [show encodeRowL encFieldAll [f] = encFieldAll f from rfl,
        splitCsvAux_fieldAll_end]
      rfl
    | cons g t =>
      rw [encodeRowL_pair, splitCsvAux_fieldAll_comma,
        ih (List.cons_ne_nil g t)]
      rfl

lemma parseCsvRow_encodeRowMin (fields : List String) (h : fields ≠ []) :
    parseCsvRow (encodeRowMin fields) = fields := by
  rw [parseCsvRow, encodeRowMin]
  rw [show (String.mk (encodeRowL encFieldMin (fields.map String.data))).data
      = encodeRowL encFieldMin (fields.map String.data) from rfl]
  rw [splitCsvAux_encodeRowMin _ (by simpa using h)]
  rw [List.map_map]
  exact map_mk_data fields

lemma parseCsvRow_encodeRowAll (fields : List String) (h : fields ≠ []) :
    parseCsvRow (encodeRowAll fields) = fields := by
  rw [parseCsvRow, encodeRowAll]
  rw [show (String.mk (encodeRowL encFieldAll (fields.map String.data))).data
      = encodeRowL encFieldAll (fields.map String.data) from rfl]
  rw [splitCsvAux_encodeRowAll _ (by simpa using h)]
  rw [List.map_map]
  exact map_mk_data fields

namespace TestV1

lemma if_singleton_ne (c : Prop) [Decidable c] (x : String) :
    (if c then [x] else []) ≠ [] ↔ c := by
  split <;> simp [*]

lemma label_issues_ne (r : Row) :
    label_issues r ≠ [] ↔
      r.label = none ∨ ∃ l, r.label = some l ∧ l ∉ valid_labels := by
  cases hl : r.label with
  | none => simp [label_issues, hl]
  | some l =>
    simp only [label_issues, hl]
    split <;> simp_all

lemma body_short_issues_ne (r : Row) :
    body_short_issues r ≠ [] ↔ (optStr r.body_text).length < 20 := by
  simp only [body_short_issues]
  exact if_singleton_ne _ _

lemma body_category_issues_ne (r : Row) :
    body_category_issues r ≠ [] ↔
      ∃ c ∈ valid_labels, pyStartsWith (optStr r.body_text) c = true := by
  simp only [body_category_issues]
  rw [if_singleton_ne]
  simp [List.any_eq_true]

lemma section_issues_ne (r : Row) :
    section_issues r ≠ [] ↔ 100 < (optStr r.section_).length := by
  simp only [section_issues]
  exact if_singleton_ne _ _

lemma date_issues_ne (r : Row) :
    date_issues r ≠ [] ↔
      ∃ d, r.date = some d ∧ 0 < d.length ∧ (d.length < 8 ∨ 20 < d.length) := by
  cases hd : r.date with
  | none => simp [date_issues, hd]
  | some d =>
    simp only [date_issues, hd]
    split
    · rw [if_singleton_ne]
      constructor
      · rintro (h | h)
        · exact ⟨d, rfl, by omega, by omega⟩
        · exact ⟨d, rfl, by omega, by omega⟩
      · rintro ⟨d', hd', _, h⟩
        cases hd'
        omega
    · constructor
      · simp
      · rintro ⟨d', hd', h0, _⟩
        cases hd'
        omega

lemma url_issues_ne (r : Row) :
    url_issues r ≠ [] ↔
      pyContains (optStr r.url) "theguardian.com" = false ∧
      pyContains (optStr r.url) "https://" = false := by
  simp only [url_issues]
  rw [if_singleton_ne]
  constructor
  · intro h
    simp only [Bool.and_eq_true, Bool.not_eq_true'] at h
    exact h
  · intro h
    simp [h.1, h.2]

lemma byline_issues_ne (r : Row) :
    byline_issues r ≠ [] ↔ 200 < (optStr r.byline).length := by
  simp only [byline_issues]
  exact if_singleton_ne _ _

lemma headline_issues_ne (r : Row) :
    headline_issues r ≠ [] ↔
      (optStr r.headline).length < 5 ∨ 500 < (optStr r.headline).length := by
  simp only [headline_issues]
  split
  · simp
    omega
  · split <;> simp <;> omega

lemma all_issues_ne (r : Row) :
    all_issues r ≠ [] ↔
      label_issues r ≠ [] ∨ body_short_issues r ≠ [] ∨
      body_category_issues r ≠ [] ∨ section_issues r ≠ [] ∨
      date_issues r ≠ [] ∨ url_issues r ≠ [] ∨
      byline_issues r ≠ [] ∨ headline_issues r ≠ [] := by
  simp only [all_issues, ne_eq, List.append_eq_nil]
  tauto

lemma is_corrupted_fst (r : Row) :
    (is_corrupted_row r).1 = true ↔ all_issues r ≠ [] := by
  simp only [is_corrupted_row]
  split <;> simp_all [List.isEmpty_iff]

lemma is_corrupted_snd_ne (r : Row) :
    (is_corrupted_row r).2 ≠ [] ↔ (is_corrupted_row r).1 = true := by
  simp only [is_corrupted_row]
  split <;> simp_all [List.isEmpty_iff]

lemma mem_is_corrupted_snd {r : Row} {x : String} (h : x ∈ all_issues r) :
    x ∈ (is_corrupted_row r).2 := by
  have hne : ¬(all_issues r).isEmpty = true := by
    intro he
    rw [List.isEmpty_iff] at he
    simp [he] at h
  simp only [is_corrupted_row, if_neg hne]
  exact h

lemma mem_blast_step (n : ℕ) (acc : Finset ℕ) (i j : ℕ) :
    j ∈ blast_step n acc i ↔
      j ∈ acc ∨ j = i ∨ (0 < i ∧ j = i - 1) ∨ (i < n - 1 ∧ j = i + 1) := by
  simp only [blast_step]
  split <;> split <;> simp [Finset.mem_insert] <;> tauto

lemma mem_foldl_blast (n : ℕ) (l : List ℕ) (acc : Finset ℕ) (j : ℕ) :
    j ∈ l.foldl (blast_step n) acc ↔
      j ∈ acc ∨ ∃ i ∈ l,
        j = i ∨ (0 < i ∧ j = i - 1) ∨ (i < n - 1 ∧ j = i + 1) := by
  induction l generalizing acc with
  | nil => simp
  | cons a t ih =>
    simp only [List.foldl_cons, ih, mem_blast_step, List.mem_cons]
    constructor
    · rintro (((h | h | h | h) | ⟨i, hi, h⟩))
      · exact Or.inl h
      · exact Or.inr ⟨a, Or.inl rfl, Or.inl h⟩
      · exact Or.inr ⟨a, Or.inl rfl, Or.inr (Or.inl h)⟩
      · exact Or.inr ⟨a, Or.inl rfl, Or.inr (Or.inr h)⟩
      · exact Or.inr ⟨i, Or.inr hi, h⟩
    · rintro (h | ⟨i, (rfl | hi), h⟩)
      · exact Or.inl (Or.inl h)
      · exact Or.inl (Or.inr h)
      · exact Or.inr ⟨i, hi, h⟩

lemma mem_corrupted_indices (rows : List Row) (i : ℕ) :
    i ∈ corrupted_indices rows ↔ corruptedAt rows i = true := by
  simp only [corrupted_indices, corruptedAt, List.mem_map, List.mem_filter]
  constructor
  · rintro ⟨⟨k, r⟩, ⟨hmem, hc⟩, rfl⟩
    rw [List.mem_enum_iff_get?] at hmem
    simp only [hmem]
    exact hc
  · intro h
    cases hg : rows.get? i with
    | none => rw [hg] at h; exact absurd h (by simp)
    | some r =>
      rw [hg] at h
      exact ⟨(i, r), ⟨List.mem_enum_iff_get?.mpr hg, h⟩, rfl⟩

lemma corruptedAt_lt_length {rows : List Row} {i : ℕ}
    (h : corruptedAt rows i = true) : i < rows.length := by
  by_contra hge
  have h0 : rows.get? i = none := List.get?_eq_none.mpr (by omega)
  rw [corruptedAt, h0] at h
  exact absurd h (by simp)

/-- Characterization of the removal set of `clean_corrupted_data`: an
index is removed exactly when it is within distance one of a corrupted
index, inside the valid range. -/
lemma mem_indices_to_remove (rows : List Row) (j : ℕ) :
    j ∈ indices_to_remove rows ↔
      ∃ i, corruptedAt rows i = true ∧ i ≤ j + 1 ∧ j ≤ i + 1 ∧
        j < rows.length := by
  simp only [indices_to_remove, mem_foldl_blast, Finset.not_mem_empty,
    false_or, mem_corrupted_indices]
  constructor
  · rintro ⟨i, hi, h⟩
    have hilt := corruptedAt_lt_length hi
    exact ⟨i, hi, by omega, by omega, by omega⟩
  · rintro ⟨i, hi, h1, h2, h3⟩
    have hilt := corruptedAt_lt_length hi
    refine ⟨i, hi, ?_⟩
    omega

lemma mem_removalSpecSet (rows : List Row) (j : ℕ) :
    j ∈ removalSpecSet rows ↔
      ∃ i, corruptedAt rows i = true ∧ i ≤ j + 1 ∧ j ≤ i + 1 ∧
        j < rows.length := by
  simp only [removalSpecSet, Finset.mem_filter, Finset.mem_range]
  constructor
  · rintro ⟨hj, i, hi, hc, h1, h2⟩
    exact ⟨i, hc, h1, h2, hj⟩
  · rintro ⟨i, hc, h1, h2, hj⟩
    exact ⟨hj, i, corruptedAt_lt_length hc, hc, h1, h2⟩

lemma indices_to_remove_eq_spec (rows : List Row) :
    indices_to_remove rows = removalSpecSet rows := by
  ext j
  rw [mem_indices_to_remove, mem_removalSpecSet]

/-- C2: the row classifier returns corrupted = true iff at least one of
the eight predicates holds (invalid/absent label; body text shorter than
20 characters; body text beginning with a category token; section longer
than 100 characters; date present with length outside [8, 20]; url
containing neither the site domain nor a scheme; byline longer than 200
characters; headline shorter than 5 or longer than 500 characters); the
reason list is non-empty iff the row is corrupted; and the specific inputs
"weather", "Hi" and "not-a-url" produce the reasons "Invalid label",
"Headline too short" and "Invalid URL" respectively. -/
theorem C2_row_classifier (r : Row) :
    ((is_corrupted_row r).1 = true ↔
      (r.label = none ∨ ∃ l, r.label = some l ∧ l ∉ valid_labels) ∨
      (optStr r.body_text).length < 20 ∨
      (∃ c ∈ valid_labels, pyStartsWith (optStr r.body_text) c = true) ∨
      100 < (optStr r.section_).length ∨
      (∃ d, r.date = some d ∧ 0 < d.length ∧
        (d.length < 8 ∨ 20 < d.length)) ∨
      (pyContains (optStr r.url) "theguardian.com" = false ∧
        pyContains (optStr r.url) "https://" = false) ∨
      200 < (optStr r.byline).length ∨
      ((optStr r.headline).length < 5 ∨ 500 < (optStr r.headline).length))
    ∧ ((is_corrupted_row r).2 ≠ [] ↔ (is_corrupted_row r).1 = true)
    ∧ (r.label = some "weather" → "Invalid label" ∈ (is_corrupted_row r).2)
    ∧ (r.headline = some "Hi" →
        "Headline too short" ∈ (is_corrupted_row r).2)
    ∧ (r.url = some "not-a-url" → "Invalid URL" ∈ (is_corrupted_row r).2) := by
  refine ⟨?_, is_corrupted_snd_ne r, ?_, ?_, ?_⟩
  · rw [is_corrupted_fst, all_issues_ne, label_issues_ne,
      body_short_issues_ne, body_category_issues_ne, section_issues_ne,
      date_issues_ne, url_issues_ne, byline_issues_ne, headline_issues_ne]
  · intro hl
    apply mem_is_corrupted_snd
    have : label_issues r = ["Invalid label"] := by
      rw [label_issues, hl]
      exact if_neg (by decide)
    simp [all_issues, this]
  · intro hh
    apply mem_is_corrupted_snd
    have : headline_issues r = ["Headline too short"] := by
      rw [headline_issues, hh]
      exact if_pos (by decide)
    simp [all_issues, this]
  · intro hu
    apply mem_is_corrupted_snd
    have : url_issues r = ["Invalid URL"] := by
      rw [url_issues, hu]
      exact if_pos (by decide)
    simp [all_issues, this]

/-- Witness for C2 at a concrete row carrying all three specific
defects. -/
theorem C2_row_classifier_witness :
    "Invalid label" ∈ (is_corrupted_row weatherRow).2 ∧
    "Headline too short" ∈ (is_corrupted_row weatherRow).2 ∧
    "Invalid URL" ∈ (is_corrupted_row weatherRow).2 :=
  ⟨(C2_row_classifier weatherRow).2.2.1 rfl,
    (C2_row_classifier weatherRow).2.2.2.1 rfl,
    (C2_row_classifier weatherRow).2.2.2.2 rfl⟩

/-- C3: the validator's removal set is exactly the union over every
corrupted row position i of the set of indices at distance at most one
from i, clamped to the valid index range; on a corpus of 10 rows with
exactly row 5 corrupted it is {4,5,6}, with exactly row 0 corrupted it is
{0,1}, and with exactly row 9 corrupted it is {8,9}. -/
theorem C3_blast_radius :
    (∀ (rows : List Row) (j : ℕ),
      j ∈ indices_to_remove rows ↔
        ∃ i, corruptedAt rows i = true ∧ i ≤ j + 1 ∧ j ≤ i + 1 ∧
          j < rows.length)
    ∧ corrupted_indices rows10_mid = [5]
    ∧ indices_to_remove rows10_mid = {4, 5, 6}
    ∧ corrupted_indices rows10_first = [0]
    ∧ indices_to_remove rows10_first = {0, 1}
    ∧ corrupted_indices rows10_last = [9]
    ∧ indices_to_remove rows10_last = {8, 9} := by
  refine ⟨mem_indices_to_remove, by decide,
    Finset.Subset.antisymm (by decide) (by decide), by decide,
    Finset.Subset.antisymm (by decide) (by decide), by decide,
    Finset.Subset.antisymm (by decide) (by decide)⟩

/-- C7: after the single removal pass, the classifier is re-run once over
the surviving rows purely to count residual corrupted rows; the count
triggers no further removal, so the row sequence written out is exactly
the one left by the one removal pass. -/
theorem C7_residual_is_reported_only (rows : List Row) :
    (clean_corrupted_data rows).rows = one_pass_survivors rows
    ∧ (clean_corrupted_data rows).remaining_issues =
        ((one_pass_survivors rows).filter
          (fun r => (is_corrupted_row r).1)).length := by
  have h : (clean_corrupted_data rows).rows = one_pass_survivors rows := by
    simp only [clean_corrupted_data, one_pass_survivors,
      indices_to_remove_eq_spec]
  exact ⟨h, by simp only [clean_corrupted_data, one_pass_survivors,
    indices_to_remove_eq_spec]⟩

end TestV1


namespace Sensing

lemma mem_linesToSkipAux (l : List String) (k j : ℕ) :
    j ∈ linesToSkipAux k l ↔
      ∃ off, ∃ h : off < l.length,
        brokenLine (l.get ⟨off, h⟩) = true ∧
        (j = k + off ∨ (0 < k + off ∧ j = k + off - 1)) := by
  induction l generalizing k with
  | nil => simp [linesToSkipAux]
  | cons a t ih =>
    simp only [linesToSkipAux, Finset.mem_union, ih]
    constructor
    · rintro (hin | ⟨off, h, hb, hj⟩)
      · by_cases hbr : brokenLine a = true
        · rw [if_pos hbr] at hin
          refine ⟨0, by simp, by simpa using hbr, ?_⟩
          by_cases hk : 0 < k
          · rw [if_pos hk] at hin
            simp only [Finset.mem_insert, Finset.mem_singleton] at hin
            omega
          · rw [if_neg hk] at hin
            simp only [Finset.mem_singleton] at hin
            omega
        · rw [if_neg hbr] at hin
          exact absurd hin (Finset.not_mem_empty j)
      · exact ⟨off + 1, by simpa using h, by simpa using hb, by omega⟩
    · rintro ⟨off, h, hb, hj⟩
      cases off with
      | zero =>
        left
        rw [if_pos (show brokenLine a = true from hb)]
        by_cases hk : 0 < k
        · rw [if_pos hk]
          simp only [Finset.mem_insert, Finset.mem_singleton]
          omega
        · rw [if_neg hk]
          simp only [Finset.mem_singleton]
          omega
      | succ m =>
        right
        rw [List.get_cons_succ] at hb
        exact ⟨m, by simpa using h, hb, by omega⟩

/-- Membership characterization of the scanner's deletion set: a line
index is deleted exactly when it is broken or immediately precedes a
broken line. -/
lemma mem_linesToSkip (lines : List String) (j : ℕ) :
    j ∈ linesToSkip lines ↔
      (∃ h : j < lines.length, brokenLine (lines.get ⟨j, h⟩) = true) ∨
      (∃ h : j + 1 < lines.length,
        brokenLine (lines.get ⟨j + 1, h⟩) = true) := by
  rw [linesToSkip, mem_linesToSkipAux]
  constructor
  · rintro ⟨off, h, hb, hj⟩
    simp only [Nat.zero_add] at hj
    rcases hj with rfl | ⟨hpos, rfl⟩
    · exact Or.inl ⟨h, hb⟩
    · right
      have : off - 1 + 1 = off := by omega
      rw [this]
      exact ⟨h, hb⟩
  · rintro (⟨h, hb⟩ | ⟨h, hb⟩)
    · exact ⟨j, h, hb, by omega⟩
    · exact ⟨j + 1, h, hb, by omega⟩

/-- The filtering pass keeps exactly the positions outside the skip set,
in order. -/
lemma removeIdx_eq_filter {α : Type} (skip : Finset ℕ) (l : List α)
    (k : ℕ) :
    removeIdx skip k l =
      ((l.enumFrom k).filter (fun p => decide (p.1 ∉ skip))).map
        Prod.snd := by
  induction l generalizing k with
  | nil => simp [removeIdx]
  | cons a t ih =>
    rw [removeIdx, List.enumFrom_cons]
    by_cases hk : k ∈ skip
    · rw [if_pos hk, List.filter_cons_of_neg (by simpa using hk)]
      exact ih (k + 1)
    · rw [if_neg hk, List.filter_cons_of_pos (by simpa using hk)]
      simp only [List.map_cons]
      rw [ih (k + 1)]

lemma clean_csv_file_eq_filter (lines : List String) :
    clean_csv_file lines =
      ((lines.enum.filter
        (fun p => decide (p.1 ∉ linesToSkip lines))).map Prod.snd) := by
  rw [clean_csv_file]
  by_cases h : linesToSkip lines = ∅
  · rw [if_pos h, h]
    simp only [Finset.not_mem_empty, not_false_eq_true, decide_True,
      List.filter_true, List.enum_map_snd]
  · rw [if_neg h, removeIdx_eq_filter]
    rfl

/-- C1: the scanner classifies a line as broken iff its candidate token
(substring before the first comma, stripped of whitespace, quotes and
byte-order marks) is neither one of the four category labels nor the
header token; the deletion set is exactly the union over broken indices i
of i together with i-1 when i > 0, collected in one pass; the output is
the input with exactly the deletion-set indices removed, order preserved,
and an empty deletion set returns the lines unchanged. -/
theorem C1_line_scan (lines : List String) :
    (∀ line, brokenLine line = true ↔
      (firstCol line ∉ (["news", "sport", "commentisfree", "culture"] :
          List String) ∧ firstCol line ≠ "label"))
    ∧ (∀ j, j ∈ linesToSkip lines ↔
        (∃ h : j < lines.length, brokenLine (lines.get ⟨j, h⟩) = true) ∨
        (∃ h : j + 1 < lines.length,
          brokenLine (lines.get ⟨j + 1, h⟩) = true))
    ∧ clean_csv_file lines =
        ((lines.enum.filter
          (fun p => decide (p.1 ∉ linesToSkip lines))).map Prod.snd)
    ∧ (linesToSkip lines = ∅ → clean_csv_file lines = lines) := by
  refine ⟨?_, mem_linesToSkip lines, clean_csv_file_eq_filter lines, ?_⟩
  · intro line
    simp only [brokenLine, valid_labels, decide_eq_true_eq, List.mem_cons,
      List.not_mem_nil]
    tauto
  · intro h
    rw [clean_csv_file, if_pos h]

/-- C10: when the first data line (index 1) is broken, the predecessor
rule marks index 0, so the header line is removed from the output even
though its own token is recognised as valid. -/
theorem C10_header_deleted (lines : List String)
    (h1 : 1 < lines.length)
    (hhdr : firstCol (lines.getD 0 "") = "label")
    (hbrk : brokenLine (lines.getD 1 "") = true) :
    brokenLine (lines.getD 0 "") = false
    ∧ 0 ∈ linesToSkip lines
    ∧ 1 ∈ linesToSkip lines
    ∧ ∀ p ∈ lines.enum.filter
        (fun p => decide (p.1 ∉ linesToSkip lines)), 2 ≤ p.1 := by
  have h0 : 0 < lines.length := by omega
  have hb1 : brokenLine (lines.get ⟨1, h1⟩) = true := by
    rw [List.get_eq_getElem, ← List.getD_eq_getElem lines "" h1]
    exact hbrk
  have hmem0 : 0 ∈ linesToSkip lines := by
    rw [mem_linesToSkip]
    exact Or.inr ⟨h1, hb1⟩
  have hmem1 : 1 ∈ linesToSkip lines := by
    rw [mem_linesToSkip]
    exact Or.inl ⟨h1, hb1⟩
  refine ⟨?_, hmem0, hmem1, ?_⟩
  · rw [brokenLine, decide_eq_false_iff_not]
    intro hnot
    rw [hhdr] at hnot
    exact hnot (by simp [valid_labels])
  · intro p hp
    rw [List.mem_filter] at hp
    rcases hp with ⟨_, hdec⟩
    rw [decide_eq_true_eq] at hdec
    by_contra hlt
    interval_cases hi : p.1
    · exact hdec hmem0
    · exact hdec hmem1

/-- Witness for C1 at a corpus with no broken line: the empty-deletion-set
branch returns the text unchanged. -/
theorem C1_line_scan_witness :
    clean_csv_file cleanCsvLines = cleanCsvLines :=
  (C1_line_scan cleanCsvLines).2.2.2 (by rfl)

/-- Witness for C10 at a concrete three-line corpus whose line 1 is a
spilled fragment: the header line index is marked for deletion although
the header token itself is valid. -/
theorem C10_header_deleted_witness :
    0 ∈ linesToSkip sampleCsvLines ∧
    brokenLine (sampleCsvLines.getD 0 "") = false :=
  ⟨(C10_header_deleted sampleCsvLines (by decide) (by rfl) (by decide)).2.1,
    (C10_header_deleted sampleCsvLines (by decide) (by rfl) (by decide)).1⟩

end Sensing

lemma mem_splitOnCharAux {sep : Char} {c : Char} :
    ∀ (l cur piece : List Char), piece ∈ splitOnCharAux sep l cur →
      c ∈ piece → c ∈ cur ∨ (c ∈ l ∧ c ≠ sep) := by
  intro l
  induction l with
  | nil =>
    intro cur piece hp hc
    rw [splitOnCharAux, List.mem_singleton] at hp
    subst hp
    exact Or.inl (List.mem_reverse.mp hc)
  | cons a rest ih =>
    intro cur piece hp hc
    rw [splitOnCharAux] at hp
    by_cases ha : a = sep
    · rw [if_pos ha] at hp
      rcases List.mem_cons.mp hp with rfl | hp2
      · exact Or.inl (List.mem_reverse.mp hc)
      · rcases ih [] piece hp2 hc with h | ⟨h1, h2⟩
        · simp at h
        · exact Or.inr ⟨List.mem_cons_of_mem a h1, h2⟩
    · rw [if_neg ha] at hp
      rcases ih (a :: cur) piece hp hc with h | ⟨h1, h2⟩
      · rcases List.mem_cons.mp h with rfl | h2
        · exact Or.inr ⟨List.mem_cons_self _ _, ha⟩
        · exact Or.inl h2
      · exact Or.inr ⟨List.mem_cons_of_mem a h1, h2⟩

/-- Characters of a `pySplit` piece come from the split string and are
never the separator. -/
lemma mem_pySplit_piece {sep : Char} {s piece : String} {c : Char}
    (hp : piece ∈ pySplit sep s) (hc : c ∈ piece.data) :
    c ∈ s.data ∧ c ≠ sep := by
  rw [pySplit, List.mem_map] at hp
  obtain ⟨pl, hpl, rfl⟩ := hp
  rcases mem_splitOnCharAux s.data [] pl hpl hc with h | h
  · simp at h
  · exact h

/-- Characters of a defaulted `pySplit` piece come from the split string
and are never the separator. -/
lemma mem_pySplit_getD {sep : Char} {s : String} {i : ℕ} {c : Char}
    (hc : c ∈ ((pySplit sep s).getD i "").data) :
    c ∈ s.data ∧ c ≠ sep := by
  by_cases hi : i < (pySplit sep s).length
  · rw [List.getD_eq_getElem _ _ hi] at hc
    exact mem_pySplit_piece (List.getElem_mem hi) hc
  · rw [List.getD_eq_default _ _ (by omega)] at hc
    simp at hc

lemma mem_pyStrip {s : String} {c : Char} (hc : c ∈ (pyStrip s).data) :
    c ∈ s.data := by
  rw [pyStrip] at hc
  have h1 := List.mem_reverse.mp hc
  have h2 := (List.dropWhile_sublist isPySpace).mem h1
  have h3 := List.mem_reverse.mp h2
  exact (List.dropWhile_sublist isPySpace).mem h3

lemma mem_replaceFuel_empty {pat : List Char} {c : Char} :
    ∀ (fuel : ℕ) (l : List Char), c ∈ replaceFuel pat [] fuel l → c ∈ l := by
  intro fuel
  induction fuel with
  | zero => intro l h; exact h
  | succ n ih =>
    intro l h
    cases l with
    | nil => exact h
    | cons a rest =>
      rw [replaceFuel] at h
      split at h
      · rw [List.nil_append] at h
        exact List.drop_subset _ _ (ih _ h)
      · rcases List.mem_cons.mp h with rfl | h2
        · exact List.mem_cons_self _ _
        · exact List.mem_cons_of_mem a (ih _ h2)

lemma mem_pyReplace_empty {s pat : String} {c : Char}
    (hc : c ∈ (pyReplace s pat "").data) : c ∈ s.data :=
  mem_replaceFuel_empty _ _ hc

lemma mem_squashWsAux {c : Char} :
    ∀ (b : Bool) (l : List Char), c ∈ squashWsAux b l →
      c = ' ' ∨ (c ∈ l ∧ isPySpace c = false) := by
  intro b l
  induction l generalizing b with
  | nil => intro h; simp [squashWsAux] at h
  | cons a rest ih =>
    intro h
    rw [squashWsAux] at h
    by_cases ha : isPySpace a
    · rw [if_pos ha] at h
      by_cases hb : b
      · subst hb
        rw [if_pos rfl] at h
        rcases ih true h with h1 | ⟨h1, h2⟩
        · exact Or.inl h1
        · exact Or.inr ⟨List.mem_cons_of_mem a h1, h2⟩
      · rw [Bool.not_eq_true] at hb
        subst hb
        rw [if_neg (by simp)] at h
        rcases List.mem_cons.mp h with rfl | h2
        · exact Or.inl rfl
        · rcases ih true h2 with h1 | ⟨h1, h3⟩
          · exact Or.inl h1
          · exact Or.inr ⟨List.mem_cons_of_mem a h1, h3⟩
    · rw [if_neg ha] at h
      rcases List.mem_cons.mp h with rfl | h2
      · exact Or.inr ⟨List.mem_cons_self _ _,
          Bool.eq_false_iff.mpr ha⟩
      · rcases ih false h2 with h1 | ⟨h1, h3⟩
        · exact Or.inl h1
        · exact Or.inr ⟨List.mem_cons_of_mem a h1, h3⟩

lemma mem_joinWith {c : Char} {sep : String} :
    ∀ l : List String, c ∈ (joinWith sep l).data →
      c ∈ sep.data ∨ ∃ s ∈ l, c ∈ s.data := by
  intro l
  induction l with
  | nil => intro h; simp [joinWith] at h
  | cons a rest ih =>
    intro h
    cases rest with
    | nil =>
      rw [show joinWith sep [a] = a from rfl] at h
      exact Or.inr ⟨a, List.mem_singleton_self a, h⟩
    | cons g t =>
      rw [show joinWith sep (a :: g :: t) =
        a ++ sep ++ joinWith sep (g :: t) from rfl] at h
      rw [String.data_append, String.data_append] at h
      rcases List.mem_append.mp h with h1 | h2
      · rcases List.mem_append.mp h1 with h3 | h4
        · exact Or.inr ⟨a, List.mem_cons_self a _, h3⟩
        · exact Or.inl h4
      · rcases ih h2 with h3 | ⟨s, hs, hcs⟩
        · exact Or.inl h3
        · exact Or.inr ⟨s, List.mem_cons_of_mem a hs, hcs⟩

lemma mem_escQ {c : Char} :
    ∀ f : List Char, c ∈ escQ f → c ∈ f ∨ c = '"' := by
  intro f
  induction f with
  | nil => intro h; simp [escQ] at h
  | cons a t ih =>
    intro h
    rw [escQ] at h
    by_cases ha : a = '"'
    · rw [if_pos ha] at h
      rcases List.mem_cons.mp h with rfl | h2
      · exact Or.inr rfl
      · rcases List.mem_cons.mp h2 with rfl | h3
        · exact Or.inr rfl
        · rcases ih h3 with h4 | h4
          · exact Or.inl (List.mem_cons_of_mem a h4)
          · exact Or.inr h4
    · rw [if_neg ha] at h
      rcases List.mem_cons.mp h with rfl | h2
      · exact Or.inl (List.mem_cons_self _ _)
      · rcases ih h2 with h4 | h4
        · exact Or.inl (List.mem_cons_of_mem a h4)
        · exact Or.inr h4

lemma no_newline_encFieldMin {f : List Char} (h : '\n' ∉ f) :
    '\n' ∉ encFieldMin f := by
  rw [encFieldMin]
  split
  · rw [encFieldAll]
    intro hmem
    rcases List.mem_cons.mp hmem with h1 | h2
    · exact absurd h1 (by decide)
    · rcases List.mem_append.mp h2 with h3 | h4
      · rcases mem_escQ f h3 with h5 | h5
        · exact h h5
        · exact absurd h5 (by decide)
      · exact absurd h4 (by decide)
  · exact h

lemma no_newline_encodeRowL {fields : List (List Char)}
    (h : ∀ f ∈ fields, '\n' ∉ f) :
    '\n' ∉ encodeRowL encFieldMin fields := by
  induction fields with
  | nil => simp [encodeRowL]
  | cons f rest ih =>
    cases rest with
    | nil =>
      rw [show encodeRowL encFieldMin [f] = encFieldMin f from rfl]
      exact no_newline_encFieldMin (h f (List.mem_singleton_self f))
    | cons g t =>
      rw [encodeRowL_pair]
      intro hmem
      rcases List.mem_append.mp hmem with h1 | h2
      · exact no_newline_encFieldMin (h f (List.mem_cons_self f _)) h1
      · rcases List.mem_cons.mp h2 with h3 | h4
        · exact absurd h3 (by decide)
        · exact ih (fun g hg => h g (List.mem_cons_of_mem f hg)) h4

lemma no_newline_encodeRowMin {fields : List String}
    (h : ∀ f ∈ fields, '\n' ∉ f.data) :
    '\n' ∉ (encodeRowMin fields).data := by
  rw [encodeRowMin]
  apply no_newline_encodeRowL
  intro f hf
  rw [List.mem_map] at hf
  obtain ⟨s, hs, rfl⟩ := hf
  exact h s hs

lemma splitOnCharAux_append_sep (sep : Char) (l2 : List Char) :
    ∀ (l1 cur : List Char), sep ∉ l1 →
      splitOnCharAux sep (l1 ++ sep :: l2) cur =
        (cur.reverse ++ l1) :: splitOnCharAux sep l2 [] := by
  intro l1
  induction l1 with
  | nil =>
    intro cur _
    rw [List.nil_append, splitOnCharAux, if_pos rfl, List.append_nil]
  | cons a t ih =>
    intro cur ha
    have ha1 : a ≠ sep := fun h => ha (h ▸ List.mem_cons_self a t)
    rw [List.cons_append, splitOnCharAux, if_neg ha1,
      ih (a :: cur) (fun h => ha (List.mem_cons_of_mem a h))]
    simp

namespace Sensing

/-- Every field the parser extracts is free of newline and carriage
return characters, provided the raw content holds no carriage return and
the caller-supplied label is clean. -/
lemma parse_article_file_fields_clean (content label : String)
    (hcr : '\r' ∉ content.data)
    (hn : '\n' ∉ label.data) (hrl : '\r' ∉ label.data) :
    ∀ f ∈ recordFields (parse_article_file content label),
      '\n' ∉ f.data ∧ '\r' ∉ f.data := by
  have hline : ∀ i : ℕ, ∀ c ∈ ((pySplit '\n' content).getD i "").data,
      c ≠ '\n' ∧ c ≠ '\r' := by
    intro i c hc
    obtain ⟨h1, h2⟩ := mem_pySplit_getD hc
    exact ⟨h2, fun heq => hcr (heq ▸ h1)⟩
  have hpiece : ∀ i j : ℕ, ∀ c ∈
      (pyStrip ((pySplit '|' ((pySplit '\n' content).getD i "")).getD
        j "")).data, c ≠ '\n' ∧ c ≠ '\r' := by
    intro i j c hc
    have h1 := mem_pyStrip hc
    obtain ⟨h2, _⟩ := mem_pySplit_getD h1
    exact hline i c h2
  have hstripline : ∀ i : ℕ, ∀ c ∈
      (pyStrip ((pySplit '\n' content).getD i "")).data,
      c ≠ '\n' ∧ c ≠ '\r' := by
    intro i c hc
    exact hline i c (mem_pyStrip hc)
  intro f hf
  simp only [recordFields, parse_article_file, List.mem_cons,
    List.not_mem_nil, or_false] at hf
  rcases hf with rfl | rfl | rfl | rfl | rfl | rfl | rfl
  · exact ⟨hn, hrl⟩
  · constructor <;> intro hc
    · split at hc
      · exact (hpiece 0 1 '\n' hc).1 rfl
      · simp at hc
    · split at hc
      · exact (hpiece 0 1 '\r' hc).2 rfl
      · simp at hc
  · constructor <;> intro hc
    · split at hc
      · exact (hpiece 0 2 '\n' hc).1 rfl
      · simp at hc
    · split at hc
      · exact (hpiece 0 2 '\r' hc).2 rfl
      · simp at hc
  · constructor <;> intro hc
    · exact (hline 1 '\n' (mem_pyReplace_empty (mem_pyStrip hc))).1 rfl
    · exact (hline 1 '\r' (mem_pyReplace_empty (mem_pyStrip hc))).2 rfl
  · constructor <;> intro hc
    · split at hc
      · exact (hstripline 4 '\n' hc).1 rfl
      · simp at hc
    · split at hc
      · exact (hstripline 4 '\r' hc).2 rfl
      · simp at hc
  · constructor <;> intro hc
    · exact (hline 2 '\n' (mem_pyStrip hc)).1 rfl
    · exact (hline 2 '\r' (mem_pyStrip hc)).2 rfl
  · constructor <;> intro hc <;>
      rcases mem_squashWsAux false _ (mem_pyStrip hc) with h1 | ⟨_, h2⟩
    · exact absurd h1 (by decide)
    · exact absurd h2 (by decide)
    · exact absurd h1 (by decide)
    · exact absurd h2 (by decide)

/-- C8: for every content string the parser returns a record: the label is
passed through, and every missing line (and every absent `|` delimiter in
the header) yields an empty string for the corresponding field rather than
a failure. -/
theorem C8_parser_totality (content label : String) :
    (parse_article_file content label).label = label
    ∧ ((pySplit '\n' content).length ≤ 1 →
        (parse_article_file content label).byline = "")
    ∧ ((pySplit '\n' content).length ≤ 2 →
        (parse_article_file content label).url = "")
    ∧ ((pySplit '\n' content).length ≤ 4 →
        (parse_article_file content label).headline = "")
    ∧ ((pySplit '\n' content).length ≤ 6 →
        (parse_article_file content label).body_text = "")
    ∧ ((pySplit '|' ((pySplit '\n' content).getD 0 "")).length ≤ 1 →
        (parse_article_file content label).section_ = ""
        ∧ (parse_article_file content label).date = "")
    ∧ ((pySplit '|' ((pySplit '\n' content).getD 0 "")).length ≤ 2 →
        (parse_article_file content label).date = "") := by
  refine ⟨rfl, ?_, ?_, ?_, ?_, ?_, ?_⟩
  · intro h
    simp only [parse_article_file]
    rw [List.getD_eq_default _ _ (by omega)]
    rfl
  · intro h
    simp only [parse_article_file]
    rw [List.getD_eq_default _ _ (by omega)]
    rfl
  · intro h
    simp only [parse_article_file]
    rw [if_neg (by omega)]
  · intro h
    simp only [parse_article_file]
    rw [if_neg (by omega)]
    rfl
  · intro h
    simp only [parse_article_file]
    constructor
    · rw [if_neg (by omega)]
    · rw [if_neg (by omega)]
  · intro h
    simp only [parse_article_file]
    rw [if_neg (by omega)]

/-- Witness for C8 at a one-line content without delimiters: all fields
except the label default to the empty string. -/
theorem C8_parser_totality_witness :
    (parse_article_file "x" "news").label = "news"
    ∧ (parse_article_file "x" "news").byline = ""
    ∧ (parse_article_file "x" "news").url = ""
    ∧ (parse_article_file "x" "news").headline = ""
    ∧ (parse_article_file "x" "news").body_text = ""
    ∧ (parse_article_file "x" "news").section_ = ""
    ∧ (parse_article_file "x" "news").date = "" :=
  ⟨(C8_parser_totality "x" "news").1,
    (C8_parser_totality "x" "news").2.1 (by decide),
    (C8_parser_totality "x" "news").2.2.1 (by decide),
    (C8_parser_totality "x" "news").2.2.2.1 (by decide),
    (C8_parser_totality "x" "news").2.2.2.2.1 (by decide),
    ((C8_parser_totality "x" "news").2.2.2.2.2.1 (by decide)).1,
    (C8_parser_totality "x" "news").2.2.2.2.2.2 (by decide)⟩

/-- C6: for a raw file with no carriage return whose label is one of the
four categories, serializing the parsed record with Sensing.py's
serializer and re-decoding the serialized data line yields the original
record in all seven fields. -/
theorem C6_round_trip (content label : String)
    (hcr : '\r' ∉ content.data) (hlab : label ∈ categories) :
    decode_data_row (to_csv_text [parse_article_file content label]) =
      recordFields (parse_article_file content label) := by
  have hlabclean : '\n' ∉ label.data ∧ '\r' ∉ label.data := by
    fin_cases hlab <;> exact ⟨by decide, by decide⟩
  have hclean := parse_article_file_fields_clean content label hcr
    hlabclean.1 hlabclean.2
  have hhdr : '\n' ∉ (encodeRowMin column_order).data := by decide
  have hrow : '\n' ∉
      (encodeRowMin (recordFields (parse_article_file content
        label))).data :=
    no_newline_encodeRowMin (fun f hf => (hclean f hf).1)
  rw [decode_data_row, to_csv_text]
  rw [show to_csv [parse_article_file content label] =
    [encodeRowMin column_order,
      encodeRowMin (recordFields (parse_article_file content label))]
    from rfl]
  rw [show joinWith "\n" [encodeRowMin column_order,
      encodeRowMin (recordFields (parse_article_file content label))] =
    encodeRowMin column_order ++ "\n" ++
      encodeRowMin (recordFields (parse_article_file content label))
    from rfl]
  have e1 : (encodeRowMin column_order ++ "\n" ++
      encodeRowMin (recordFields (parse_article_file content label)) ++
      "\n").data =
      (encodeRowMin column_order).data ++ '\n' ::
        ((encodeRowMin (recordFields (parse_article_file content
          label))).data ++ '\n' :: []) := by
    simp [String.data_append]
  rw [pySplit, e1,
    splitOnCharAux_append_sep '\n' _ _ [] hhdr,
    splitOnCharAux_append_sep '\n' [] _ [] hrow]
  rw [show splitOnCharAux '\n' [] [] = [[]] from rfl]
  simp only [List.reverse_nil, List.nil_append, List.map_cons,
    List.map_nil]
  rw [show ([String.mk (encodeRowMin column_order).data,
      String.mk (encodeRowMin (recordFields (parse_article_file content
        label))).data, String.mk []].getD 1 "") =
    encodeRowMin (recordFields (parse_article_file content label))
    from rfl]
  exact parseCsvRow_encodeRowMin _ (by simp [recordFields])

/-- Witness for C6 at the empty content: all fields parse empty, the data
line is six commas, and decoding recovers the seven empty fields plus the
label. -/
theorem C6_round_trip_witness :
    decode_data_row (to_csv_text [parse_article_file "" "news"]) =
      recordFields (parse_article_file "" "news") :=
  C6_round_trip "" "news" (by decide) (by decide)

/-- C9: corpus collection is total over the modelled filesystem: a missing
category directory behaves exactly like an empty one (warning, skip), an
unreadable file is skipped without affecting the rest, and the only fatal
condition is an empty collection result, in which case no output is
written. -/
theorem C9_collection_error_handling
    (fs : String → Option (List (Option String))) :
    (∀ cat, fs cat = none →
      collect_all_articles fs =
        collect_all_articles (fun c => if c = cat then some [] else fs c))
    ∧ (∀ cat files, fs cat = some files →
        collect_all_articles
          (fun c => if c = cat then some (none :: files) else fs c) =
          collect_all_articles fs)
    ∧ (create_sensed_data_csv fs = none ↔ collect_all_articles fs = []) := by
  refine ⟨?_, ?_, ?_⟩
  · intro cat hcat
    rw [collect_all_articles, collect_all_articles]
    congr 1
    apply List.map_congr_left
    intro c _
    by_cases hc : c = cat
    · subst hc
      rw [hcat, if_pos rfl]
      rfl
    · rw [if_neg hc]
  · intro cat files hcat
    rw [collect_all_articles, collect_all_articles]
    congr 1
    apply List.map_congr_left
    intro c _
    by_cases hc : c = cat
    · subst hc
      rw [if_pos rfl, hcat]
      rfl
    · rw [if_neg hc]
  · rw [create_sensed_data_csv]
    by_cases h : (collect_all_articles fs).isEmpty
    · rw [if_pos h]
      simp [List.isEmpty_iff.mp h]
    · rw [if_neg h]
      constructor
      · intro hc
        exact absurd hc (by simp)
      · intro hc
        rw [List.isEmpty_iff] at h
        exact absurd hc h

/-- Witness for C9: with only the news directory present, a missing
category behaves like an empty one and an unreadable file is skipped; with
no directory at all, no output is written. -/
theorem C9_collection_error_handling_witness :
    collect_all_articles fs0 =
      collect_all_articles (fun c => if c = "sport" then some [] else fs0 c)
    ∧ collect_all_articles
        (fun c => if c = "news" then
          some (none :: [some "The Guardian | UK | 2024"]) else fs0 c) =
        collect_all_articles fs0
    ∧ create_sensed_data_csv fsNone = none :=
  ⟨(C9_collection_error_handling fs0).1 "sport" rfl,
    (C9_collection_error_handling fs0).2.1 "news"
      [some "The Guardian | UK | 2024"] rfl,
    (C9_collection_error_handling fsNone).2.2.mpr rfl⟩

end Sensing

/-- C4 counterexample: Sensing.py's serializer (pandas `to_csv` with no
`quoting` argument, hence minimal quoting) leaves plain fields unquoted
— the data line serialized for a record with plain fields contains no
quote character at all, so no field of it is quoted. -/
theorem C4_quote_all_counterexample :
    ((Sensing.to_csv [Sensing.sampleRecord]).getD 1 "").data.all
      (fun c => c != '"') = true
    ∧ (Sensing.to_csv [Sensing.sampleRecord]).getD 1 "" =
      "news,uk,2024-01-01,Ann,Hello there,https://www.theguardian.com/x,plain body text" := by
  exact ⟨by decide, by rfl⟩

/-- C4 amended: both serializers emit one header line plus one line per
record with comma-separated fields; Sensing_V1's serializer (`quoting=1`)
encloses every field in quotes regardless of content, and its data lines
decode back to the exact field list; Sensing.py's serializer instead uses
minimal quoting — a field is left bare unless it contains a delimiter, a
quote, or a line-terminator character, in which case it is quoted the same
way. -/
theorem C4_serializer_quoting (records : List Record) :
    (SensingV1.to_csv records).length = records.length + 1
    ∧ (Sensing.to_csv records).length = records.length + 1
    ∧ (∀ f : List Char, (encFieldAll f).head? = some '"'
        ∧ (encFieldAll f).getLast? = some '"')
    ∧ (∀ r ∈ records,
        parseCsvRow (encodeRowAll (recordFields r)) = recordFields r)
    ∧ (∀ f : List Char, needsQ f = false → encFieldMin f = f)
    ∧ (∀ f : List Char, needsQ f = true → encFieldMin f = encFieldAll f) := by
  refine ⟨by simp [SensingV1.to_csv], by simp [Sensing.to_csv], ?_, ?_, ?_, ?_⟩
  · intro f
    constructor
    · rfl
    · rw [encFieldAll, show ('"' :: (escQ f ++ ['"']) : List Char) =
        ('"' :: escQ f) ++ ['"'] from by simp]
      exact List.getLast?_concat _
  · intro r _
    exact parseCsvRow_encodeRowAll _ (by simp [recordFields])
  · intro f h
    rw [encFieldMin, if_neg (by simp [h])]
  · intro f h
    rw [encFieldMin, if_pos h]

/-- Witness for C4 at a concrete record and concrete fields. -/
theorem C4_serializer_quoting_witness :
    parseCsvRow (encodeRowAll (recordFields Sensing.sampleRecord)) =
      recordFields Sensing.sampleRecord
    ∧ encFieldMin "plain body text".data = "plain body text".data
    ∧ encFieldMin "x,y".data = encFieldAll "x,y".data :=
  ⟨(C4_serializer_quoting [Sensing.sampleRecord]).2.2.2.1
      Sensing.sampleRecord (List.mem_singleton_self _),
    (C4_serializer_quoting []).2.2.2.2.1 _ (by decide),
    (C4_serializer_quoting []).2.2.2.2.2 _ (by decide)⟩

namespace PreProc

/-- C5: evaluation of `clean_text` on the known mojibake artifacts.  The
apostrophe and quote artifacts are remapped as documented, but the em-dash
and bullet artifacts are not: their patterns begin with the right-quote
artifact, which the earlier right-quote replacement has already consumed,
so the dash and bullet replacement rules can never fire.  The remapping
runs before the whitespace collapse. -/
theorem C5_clean_text_artifacts :
    clean_text "â€™" = "'"
    ∧ clean_text "â€œ" = "\""
    ∧ clean_text "â€" = "\""
    ∧ clean_text "â€\"" = "\"\""
    ∧ clean_text "â€\"" ≠ "-"
    ∧ clean_text "â€¢" = "\"¢"
    ∧ clean_text "â€¢" ≠ "•"
    ∧ clean_text = fun t => collapse_spaces (remap_punct t) :=
  ⟨by rfl, by rfl, by rfl, by rfl, by decide, by rfl, by decide, rfl⟩

end PreProc

end MLG22
